import Mathlib

/-!
Verification of the command-mask plugin (src/main.py): a shallow embedding
of its rule-parsing, matching/rewriting and reply-policy code over lists of
characters, followed by theorems settling the specification claims.

Python strings are modelled as List Char.  Python dict values that the code
reads through _read_str / _read_text are modelled as Option (List Char):
none stands for an absent key or None, some s for a string value (the code
paths relevant to the claims only ever receive strings or None there).
-/

namespace CmdMask

/-- Python strings are modelled as lists of characters. -/
abbrev Str := List Char

/-- Converts a Lean string literal to the character-list model. -/
def strL (s : String) : Str := s.data

/-- Whitespace test matching the characters Python's str.strip and the
regular expression backslash-s treat as whitespace in the ASCII range. -/
def isSpace (c : Char) : Bool :=
  c = ' ' || c = '\t' || c = '\n' || c = '\r' || c = '\x0b' || c = '\x0c'

/-- Removes leading whitespace (the front half of Python str.strip). -/
def stripStart : Str → Str
  | [] => []
  | c :: s => if isSpace c then stripStart s else c :: s

/-- Removes trailing whitespace (the back half of Python str.strip). -/
def stripEnd (s : Str) : Str := (stripStart s.reverse).reverse

/-- Python str.strip(): removes leading and trailing whitespace. -/
def pyStrip (s : Str) : Str := stripEnd (stripStart s)

/-- Embeds _normalize_text's whitespace-run collapsing: the flag records
whether the previous character was part of a whitespace run. -/
def collapseAux : Str → Bool → Str
  | [], _ => []
  | c :: rest, prevSpace =>
    if isSpace c then
      if prevSpace then collapseAux rest true
      else ' ' :: collapseAux rest true
    else c :: collapseAux rest false

/-- Embeds _normalize_text: re.sub(backslash-s+, one space, text.strip()). -/
def normalize_text (s : Str) : Str := collapseAux (pyStrip s) false

/-- Boolean prefix test, Python str.startswith. -/
def startsWithL : Str → Str → Bool
  | [], _ => true
  | _ :: _, [] => false
  | a :: p, b :: s => a = b && startsWithL p s

/-- Finds the first occurrence of sep in s, returning the text before and
after it; none when sep does not occur.  This is the engine behind the
models of Python's in-operator and str.split. -/
def findSplit (sep : Str) : Str → Option (Str × Str)
  | [] => none
  | c :: rest =>
    if startsWithL sep (c :: rest) then some ([], (c :: rest).drop sep.length)
    else
      match findSplit sep rest with
      | some (pre, post) => some (c :: pre, post)
      | none => none

/-- Python's substring containment operator, sep in s. -/
def containsSub (sep s : Str) : Bool := (findSplit sep s).isSome

/-- Fuelled worker for pySplit; the fuel bounds the number of separator
occurrences, and s.length fuel is always enough. -/
def pySplitFuel (sep : Str) : Nat → Str → List Str
  | 0, s => [s]
  | Nat.succ fuel, s =>
    match findSplit sep s with
    | none => [s]
    | some (pre, post) => pre :: pySplitFuel sep fuel post

/-- Python str.split(sep) for a non-empty separator. -/
def pySplit (sep : Str) (s : Str) : List Str := pySplitFuel sep s.length s

/-- Python s.split(sep, 1)[1] in the places the code uses it, where a
startswith guard has already ensured sep occurs; the fallback branch for
an absent separator is unreachable under those guards. -/
def splitAfterFirst (c : Char) (s : Str) : Str :=
  match findSplit [c] s with
  | some (_, post) => post
  | none => s

/-- Python str.lower restricted to the ASCII letters that appear in the
option tokens the code compares against. -/
def lowerL (s : Str) : Str := s.map Char.toLower

/-- Canonical rule value produced by every parser entry point
(dataclass MappingEntry in src/main.py). -/
structure MappingEntry where
  alias_raw : Str
  target_raw : Str
  reply_mode : Str
  reply_text : Str
deriving DecidableEq, Repr

/-- Process-wide rule store (class _State in src/main.py). -/
structure RuleStore where
  enabled : Bool
  mappings : List MappingEntry
deriving DecidableEq, Repr

/-- Embeds _read_str: a string value is stripped, anything else becomes
the empty string (absent keys and None are the non-string cases reached
by the claims). -/
def read_str : Option Str → Str
  | some s => pyStrip s
  | none => []

/-- Embeds _read_text: None becomes the empty string, a string value is
stripped (the str(value) branch for non-string non-None values is outside
the modelled value domain). -/
def read_text : Option Str → Str
  | none => []
  | some s => pyStrip s

/-- Python's or-chaining over possibly-absent string values: the left
operand wins when it is truthy (present and non-empty). -/
def pyOr (a b : Option Str) : Option Str :=
  match a with
  | some s => if s = [] then b else some s
  | none => b

/-- Embeds _strip_wake_prefix: removes the first configured wake prefix
that the text starts with and strips the remainder; empty prefixes are
skipped; no match leaves the text unchanged. -/
def strip_wake (text : Str) : List Str → Str
  | [] => text
  | p :: ps =>
    if p ≠ [] ∧ startsWithL p text = true then pyStrip (text.drop p.length)
    else strip_wake text ps

/-- Embeds the option-segment loop body of _parse_mapping_line: the
accumulator carries (reply_mode, reply_text) and each segment may override
either, exactly following the chain of continue-guarded branches. -/
def optStep (acc : Str × Str) (opt : Str) : Str × Str :=
  let opt_strip := pyStrip opt
  let lower := lowerL opt_strip
  if lower = strL "silent" ∨ lower = strL "mute" ∨ lower = strL "no_reply"
      ∨ opt_strip = strL "静默" ∨ opt_strip = strL "不回复"
      ∨ opt_strip = strL "不回" ∨ opt_strip = strL "无回复" then
    (strL "silent", acc.2)
  else if lower = strL "keep" ∨ lower = strL "default" ∨ lower = strL "passthrough"
      ∨ opt_strip = strL "保留" ∨ opt_strip = strL "默认"
      ∨ opt_strip = strL "原样" then
    (strL "keep", acc.2)
  else if lower = strL "custom" ∨ opt_strip = strL "自定义" ∨ opt_strip = strL "自订" then
    (strL "custom", acc.2)
  else if startsWithL (strL "reply_mode=") lower = true
      ∨ startsWithL (strL "回复模式=") opt_strip = true then
    let mode := pyStrip (splitAfterFirst '=' opt_strip)
    let mode_lower := lowerL mode
    if mode_lower = strL "silent" ∨ mode_lower = strL "custom" ∨ mode_lower = strL "keep" then
      (mode_lower, acc.2)
    else if mode = strL "静默" ∨ mode = strL "不回复" ∨ mode = strL "不回"
        ∨ mode = strL "无回复" then
      (strL "silent", acc.2)
    else if mode = strL "自定义" ∨ mode = strL "自订" then
      (strL "custom", acc.2)
    else if mode = strL "保留" ∨ mode = strL "默认" ∨ mode = strL "原样" then
      (strL "keep", acc.2)
    else acc
  else if startsWithL (strL "reply=") lower = true
      ∨ startsWithL (strL "reply_text=") lower = true
      ∨ startsWithL (strL "回复=") opt_strip = true
      ∨ startsWithL (strL "回复文本=") opt_strip = true then
    (strL "custom", pyStrip (splitAfterFirst '=' opt_strip))
  else if startsWithL (strL "text=") lower = true
      ∨ startsWithL (strL "文本=") opt_strip = true then
    (strL "custom", pyStrip (splitAfterFirst '=' opt_strip))
  else if startsWithL (strL "回复:") opt_strip = true then
    (strL "custom", pyStrip (splitAfterFirst ':' opt_strip))
  else
    (strL "custom", opt_strip)

/-- Shared tail of _parse_mapping_line once the first segment has been
split at its separator: strip both sides, reject empties and fold the
option segments starting from the keep default. -/
def finishEntry (t_raw a_raw : Str) (opts : List Str) : Option MappingEntry :=
  if pyStrip a_raw = [] ∨ pyStrip t_raw = [] then none
  else
    some ⟨pyStrip a_raw, pyStrip t_raw, (opts.foldl optStep (strL "keep", [])).1,
      (opts.foldl optStep (strL "keep", [])).2⟩

/-- Body of _parse_mapping_line applied to the cleaned segment list: the
first segment is split at the first arrow (checking the fat arrow before
the thin one; the left side is the target, the right side the alias), the
remaining segments are the options. -/
def parseParts : List Str → Option MappingEntry
  | [] => none
  | mapping_part :: opts =>
    match findSplit (strL "=>") mapping_part with
    | some (t_raw, a_raw) => finishEntry t_raw a_raw opts
    | none =>
      match findSplit (strL "->") mapping_part with
      | some (t_raw, a_raw) => finishEntry t_raw a_raw opts
      | none => none

/-- Embeds _parse_mapping_line: split on the double bar, strip segments and
drop empty ones, then process the segments. -/
def parse_mapping_line (line : Str) : Option MappingEntry :=
  if line = [] then none
  else parseParts (((pySplit (strL "||") line).map pyStrip).filter (fun p => p ≠ []))

/-- Embeds _build_mapping_from_config; silent is the Python truthiness of
the silent field. -/
def build_mapping_from_config (command alias_text : Option Str) (silent : Bool)
    (reply_text : Option Str) : Option MappingEntry :=
  let command_str := read_str command
  let alias_str := read_str alias_text
  if command_str = [] ∨ alias_str = [] then none
  else
    let reply_text_str := read_text reply_text
    let reply_mode :=
      if silent then strL "silent"
      else if reply_text_str ≠ [] then strL "custom"
      else strL "keep"
    some ⟨alias_str, command_str, reply_mode, reply_text_str⟩

/-- Record shape consumed by the fixed reset and new shortcuts. -/
structure FixedRec where
  alias_text : Option Str := none
  silent : Bool := false
  reply_text : Option Str := none
deriving DecidableEq, Repr

/-- Embeds _build_fixed_mapping; none stands for a value that is not a
dict, which the code rejects. -/
def build_fixed_mapping (command : Str) : Option FixedRec → Option MappingEntry
  | none => none
  | some d => build_mapping_from_config (some command) d.alias_text d.silent d.reply_text

/-- Record shape consumed by _build_custom_mappings; field names follow
the dict keys the code reads (reply_zh stands for the localized reply
key). -/
structure CustomRec where
  command : Option Str := none
  alias_text : Option Str := none
  alias_k : Option Str := none
  mask : Option Str := none
  silent : Bool := false
  reply_text : Option Str := none
  reply : Option Str := none
  reply_zh : Option Str := none
deriving DecidableEq, Repr

/-- Embeds _build_custom_mappings over a list of record items (non-dict
items, which the code skips, are outside the modelled list). -/
def build_custom_mappings (l : List CustomRec) : List MappingEntry :=
  l.filterMap fun item =>
    build_mapping_from_config item.command
      (pyOr item.alias_text (pyOr item.alias_k item.mask))
      item.silent
      (pyOr item.reply_text (pyOr item.reply item.reply_zh))

/-- Record shape consumed by the dict branch of _build_mappings; the four
command fields model the keys command, target and the two localized
spellings, the four alias fields model alias, mask and the two localized
spellings, mode_zh and reply_zh the localized reply_mode and reply keys. -/
structure MixedRec where
  command : Option Str := none
  target : Option Str := none
  cmd_zh1 : Option Str := none
  cmd_zh2 : Option Str := none
  alias_k : Option Str := none
  mask : Option Str := none
  alias_zh1 : Option Str := none
  alias_zh2 : Option Str := none
  reply_mode : Option Str := none
  mode_zh : Option Str := none
  reply_text : Option Str := none
  reply_zh : Option Str := none
deriving DecidableEq, Repr

/-- Item of the generic mixed list: a DSL string or a structured record
(items of any other type are skipped by the code and not modelled). -/
inductive Item where
  | line (s : Str)
  | record (r : MixedRec)
deriving DecidableEq, Repr

/-- Embeds the per-item body of _build_mappings: strings go through the
inline parser; records are re-expressed as an inline DSL line built with
an f-string and then parsed. -/
def itemToEntry : Item → Option MappingEntry
  | Item.line s => parse_mapping_line s
  | Item.record r =>
    let command := pyOr r.command (pyOr r.target (pyOr r.cmd_zh1 r.cmd_zh2))
    let alias_v := pyOr r.alias_k (pyOr r.mask (pyOr r.alias_zh1 r.alias_zh2))
    let command_str := read_str command
    let alias_str := read_str alias_v
    if command_str = [] ∨ alias_str = [] then none
    else
      let reply_mode := read_text (pyOr r.reply_mode (pyOr r.mode_zh (some (strL "keep"))))
      let reply_text := read_text (pyOr r.reply_text (pyOr r.reply_zh (some [])))
      parse_mapping_line
        (command_str ++ strL " => " ++ alias_str
          ++ strL " || reply_mode=" ++ reply_mode
          ++ strL " || reply=" ++ reply_text)

/-- Embeds _build_mappings over the generic mixed list. -/
def build_mappings (l : List Item) : List MappingEntry := l.filterMap itemToEntry

/-- Line splitter standing for Python str.splitlines: it splits at every
newline and carriage return.  A CRLF pair thus produces an extra empty
line and a trailing terminator produces a trailing empty line; both are
dropped by the blank-line filter of the only caller, so the emitted
entries agree with the source. -/
def splitLinesAux : Str → Str → List Str
  | [], acc => [acc.reverse]
  | c :: rest, acc =>
    if c = '\n' ∨ c = '\r' then acc.reverse :: splitLinesAux rest []
    else splitLinesAux rest (c :: acc)

/-- Splits a text block into lines. -/
def splitLinesL (s : Str) : List Str := splitLinesAux s []

/-- Embeds _build_mappings_from_text: skip blank and comment lines, parse
the rest with the inline parser. -/
def build_mappings_from_text (text : Str) : List MappingEntry :=
  if text = [] then []
  else
    (splitLinesL text).filterMap fun raw =>
      if pyStrip raw = [] then none
      else if startsWithL (strL "#") (pyStrip raw) = true
          ∨ startsWithL (strL "//") (pyStrip raw) = true
          ∨ startsWithL (strL ";") (pyStrip raw) = true then none
      else parse_mapping_line (pyStrip raw)

/-- Embeds the mapping-list assembly of _load_config: fixed reset and new
shortcuts, then custom structured rules, then the free-text block, then
the generic mixed list. -/
def load_mappings (reset_rule new_rule : Option FixedRec)
    (custom_rules : List CustomRec) (rules_text : Str) (raw : List Item) :
    List MappingEntry :=
  (match build_fixed_mapping (strL "/reset") reset_rule with
   | some e => [e]
   | none => [])
  ++ (match build_fixed_mapping (strL "/new") new_rule with
      | some e => [e]
      | none => [])
  ++ build_custom_mappings custom_rules
  ++ build_mappings_from_text rules_text
  ++ build_mappings raw

/-- Result object produced on the reply path: make_result() yields the
empty result, plain_result(t) a plain-text result, and host n stands for
an arbitrary reply the host had already produced. -/
inductive RResult where
  | empty
  | plain (t : Str)
  | host (n : Nat)
deriving DecidableEq, Repr

/-- Message event as seen by this plugin: the message text, the
wake/mention flag, and the per-event extra entries the plugin reads and
writes (each modelled as an Option field, none when the extra is unset),
plus the should_call_llm flag and the current reply result. -/
structure Event where
  message_str : Str
  is_at_or_wake_command : Bool
  applied : Bool := false
  x_reply_mode : Option Str := none
  x_reply_text : Option Str := none
  x_alias : Option Str := none
  x_target : Option Str := none
  x_original : Option Str := none
  call_llm : Option Bool := none
  result : Option RResult := none
deriving DecidableEq, Repr

/-- Event produced when an entry fires, mirroring the mutation block of
_apply_mapping: the six extras are set, the message text becomes the
rewrite, and should_call_llm(True) is recorded.  Used to state the
matcher characterization. -/
def applyEv (ps : List Str) (msg : Str) (e : Event) (ent : MappingEntry) : Event :=
  let alias_norm := strip_wake (normalize_text ent.alias_raw) ps
  let target_norm := strip_wake (normalize_text ent.target_raw) ps
  let suffix := pyStrip (msg.drop alias_norm.length)
  let new_msg := if suffix = [] then target_norm else target_norm ++ ' ' :: suffix
  { e with
    applied := true
    x_reply_mode := some ent.reply_mode
    x_reply_text := some ent.reply_text
    x_alias := some alias_norm
    x_target := some target_norm
    x_original := some e.message_str
    message_str := new_msg
    call_llm := some true }

/-- Embeds the for-loop of _apply_mapping over the stored entries; ps is
the configured wake-prefix list and msg the normalized message. -/
def apply_loop (ps : List Str) (msg : Str) (e : Event) : List MappingEntry → Bool × Event
  | [] => (false, e)
  | entry :: rest =>
    let alias_norm := strip_wake (normalize_text entry.alias_raw) ps
    if alias_norm = [] then apply_loop ps msg e rest
    else if msg = alias_norm ∨ startsWithL (alias_norm ++ [' ']) msg = true then
      let target_norm := strip_wake (normalize_text entry.target_raw) ps
      if target_norm = [] then apply_loop ps msg e rest
      else (true, applyEv ps msg e entry)
    else apply_loop ps msg e rest

/-- Embeds _apply_mapping; ps stands for _get_wake_prefixes(cfg), the
wake-prefix list read from the configuration.  Returns the boolean result
together with the possibly-updated event. -/
def apply_mapping (store : RuleStore) (ps : List Str) (e : Event) : Bool × Event :=
  if store.enabled = false ∨ store.mappings = [] then (false, e)
  else if e.applied then (true, e)
  else if e.is_at_or_wake_command = false then (false, e)
  else
    let msg := normalize_text e.message_str
    if msg = [] then (false, e)
    else apply_loop ps msg e store.mappings

/-- Decidable condition under which the loop of _apply_mapping fires on an
entry: non-empty normalized wake-stripped alias, exact or word-boundary
prefix match, and non-empty normalized wake-stripped target. -/
def entryMatches (ps : List Str) (msg : Str) (ent : MappingEntry) : Bool :=
  let a := strip_wake (normalize_text ent.alias_raw) ps
  let t := strip_wake (normalize_text ent.target_raw) ps
  !(a = [] : Bool) && (msg = a || startsWithL (a ++ [' ']) msg) && !(t = [] : Bool)

/-- Embeds _override_reply, the on_decorating_result hook: a no-op unless
the applied extra is set; keep leaves the event alone, silent installs the
empty result, custom installs the empty result for blank text and a
plain-text result otherwise. -/
def override_reply (e : Event) : Event :=
  if e.applied = false then e
  else
    let mode := e.x_reply_mode.getD (strL "keep")
    if mode = strL "keep" then e
    else if mode = strL "silent" then { e with result := some RResult.empty }
    else if mode = strL "custom" then
      let text := e.x_reply_text.getD []
      if text = [] ∨ pyStrip text = [] then { e with result := some RResult.empty }
      else { e with result := some (RResult.plain text) }
    else e

/-! Lemmas about the stripping primitives. -/

theorem stripStart_suffix (s : Str) : stripStart s <:+ s := by
  induction s with
  | nil => exact List.suffix_refl _
  | cons c t ih =>
    simp only [stripStart]
    split
    · exact ih.trans (List.suffix_cons c t)
    · exact List.suffix_refl _

theorem stripStart_length_le (s : Str) : (stripStart s).length ≤ s.length :=
  (stripStart_suffix s).sublist.length_le

theorem stripEnd_preL (s : Str) : stripEnd s <+: s := by
  have h := (List.reverse_prefix).mpr (stripStart_suffix s.reverse)
  simpa [stripEnd] using h

theorem stripStart_cons_space (c : Char) (s : Str) (h : isSpace c = true) :
    stripStart (c :: s) = stripStart s := by
  simp [stripStart, h]

theorem stripStart_cons_nonspace (c : Char) (s : Str) (h : isSpace c = false) :
    stripStart (c :: s) = c :: s := by
  simp [stripStart, h]

theorem nonspace_of_stripStart_fix (c : Char) (s : Str)
    (h : stripStart (c :: s) = c :: s) : isSpace c = false := by
  by_contra hc
  rw [Bool.not_eq_false] at hc
  rw [stripStart_cons_space c s hc] at h
  have hlen := stripStart_length_le s
  rw [h] at hlen
  simp at hlen

theorem stripStart_idem (s : Str) : stripStart (stripStart s) = stripStart s := by
  induction s with
  | nil => rfl
  | cons c t ih =>
    by_cases h : isSpace c = true
    · rw [stripStart_cons_space c t h, ih]
    · rw [Bool.not_eq_true] at h
      rw [stripStart_cons_nonspace c t h, stripStart_cons_nonspace c t h]

theorem stripEnd_idem (s : Str) : stripEnd (stripEnd s) = stripEnd s := by
  simp [stripEnd, stripStart_idem]

theorem stripStart_stripEnd_fix (v : Str) (h : stripStart v = v) :
    stripStart (stripEnd v) = stripEnd v := by
  cases hE : stripEnd v with
  | nil => rfl
  | cons c u =>
    obtain ⟨w, hw⟩ := stripEnd_preL v
    rw [hE] at hw
    have hv : stripStart (c :: (u ++ w)) = c :: (u ++ w) := by
      rw [← List.cons_append, hw]
      exact h
    have hc := nonspace_of_stripStart_fix c (u ++ w) hv
    exact stripStart_cons_nonspace c u hc

theorem pyStrip_stripStart_fix (s : Str) : stripStart (pyStrip s) = pyStrip s :=
  stripStart_stripEnd_fix (stripStart s) (stripStart_idem s)

theorem pyStrip_stripEnd_fix (s : Str) : stripEnd (pyStrip s) = pyStrip s := by
  rw [pyStrip, stripEnd_idem]

theorem pyStrip_idem (s : Str) : pyStrip (pyStrip s) = pyStrip s := by
  conv_lhs => rw [pyStrip]
  rw [pyStrip_stripStart_fix, pyStrip_stripEnd_fix]

theorem pyStrip_eq_self_iff (s : Str) :
    pyStrip s = s ↔ stripStart s = s ∧ stripEnd s = s := by
  constructor
  · intro h
    have h1 : (stripStart s).length ≤ s.length := stripStart_length_le s
    have h2 : (pyStrip s).length ≤ (stripStart s).length :=
      (stripEnd_preL (stripStart s)).sublist.length_le
    rw [h] at h2
    have hlen : (stripStart s).length = s.length := le_antisymm h1 h2
    have hfix : stripStart s = s := (stripStart_suffix s).sublist.eq_of_length hlen
    refine ⟨hfix, ?_⟩
    rw [pyStrip, hfix] at h
    exact h
  · intro ⟨h1, h2⟩
    rw [pyStrip, h1, h2]

theorem stripStart_append_fix (s t : Str) (h : stripStart s = s) (hne : s ≠ []) :
    stripStart (s ++ t) = s ++ t := by
  cases s with
  | nil => exact absurd rfl hne
  | cons c u =>
    have hc := nonspace_of_stripStart_fix c u h
    rw [List.cons_append]
    exact stripStart_cons_nonspace c (u ++ t) hc

theorem stripEnd_append_fix (t s : Str) (h : stripEnd s = s) (hne : s ≠ []) :
    stripEnd (t ++ s) = t ++ s := by
  have hrev : stripStart s.reverse = s.reverse := by
    have h2 := congrArg List.reverse h
    rw [stripEnd, List.reverse_reverse] at h2
    exact h2
  have hne2 : s.reverse ≠ [] := by simpa using hne
  rw [stripEnd, List.reverse_append, stripStart_append_fix _ _ hrev hne2]
  simp

theorem pyStrip_fix_of_ends (C X A : Str)
    (hC1 : stripStart C = C) (hCne : C ≠ [])
    (hA2 : stripEnd A = A) (hAne : A ≠ []) :
    pyStrip (C ++ X ++ A) = C ++ X ++ A := by
  rw [pyStrip, List.append_assoc, stripStart_append_fix _ _ hC1 hCne,
    ← List.append_assoc, stripEnd_append_fix _ _ hA2 hAne]

theorem pyStrip_cons_space (s : Str) : pyStrip (' ' :: s) = pyStrip s := by
  rw [pyStrip, pyStrip, stripStart_cons_space _ _ (by decide)]

theorem stripEnd_append_space (s : Str) : stripEnd (s ++ [' ']) = stripEnd s := by
  rw [stripEnd, stripEnd, List.reverse_append]
  have h : ([' '] : Str).reverse ++ s.reverse = ' ' :: s.reverse := by simp
  rw [h, stripStart_cons_space _ _ (by decide)]

theorem stripStart_append_cases (s t : Str) :
    stripStart (s ++ t) =
      if stripStart s = [] then stripStart t else stripStart s ++ t := by
  induction s with
  | nil => simp [stripStart]
  | cons c u ih =>
    by_cases h : isSpace c = true
    · rw [List.cons_append, stripStart_cons_space c _ h, stripStart_cons_space c u h, ih]
    · rw [Bool.not_eq_true] at h
      rw [List.cons_append, stripStart_cons_nonspace c _ h, stripStart_cons_nonspace c u h]
      simp

theorem pyStrip_append_space (s : Str) : pyStrip (s ++ [' ']) = pyStrip s := by
  by_cases h : stripStart s = []
  · have h1 : stripStart (s ++ [' ']) = [] := by
      rw [stripStart_append_cases, if_pos h]
      decide
    rw [pyStrip, pyStrip, h, h1]
  · rw [pyStrip, pyStrip, stripStart_append_cases, if_neg h, stripEnd_append_space]

/-! Lemmas about occurrence search and splitting. -/

theorem startsWithL_append_extend (p : Str) :
    ∀ s t : Str, startsWithL p s = true → startsWithL p (s ++ t) = true := by
  induction p with
  | nil => intro s t _; rfl
  | cons a p' ih =>
    intro s t h
    cases s with
    | nil => simp [startsWithL] at h
    | cons b s' =>
      simp only [startsWithL, Bool.and_eq_true] at h ⊢
      exact ⟨h.1, ih s' t h.2⟩

theorem startsWithL_decomp (p : Str) :
    ∀ s : Str, startsWithL p s = true → s = p ++ s.drop p.length := by
  induction p with
  | nil => intro s _; simp
  | cons a p' ih =>
    intro s h
    cases s with
    | nil => simp [startsWithL] at h
    | cons b s' =>
      simp only [startsWithL, Bool.and_eq_true, decide_eq_true_eq] at h
      obtain ⟨hab, h2⟩ := h
      have := ih s' h2
      simp only [List.length_cons, List.drop_succ_cons, List.cons_append]
      rw [hab, ← this]

theorem startsWithL_append_self (p t : Str) : startsWithL p (p ++ t) = true := by
  induction p with
  | nil => rfl
  | cons a p' ih => simp [startsWithL, ih]

theorem findSplit_cons (sep : Str) (c : Char) (s : Str) :
    findSplit sep (c :: s) =
      if startsWithL sep (c :: s) = true then some ([], (c :: s).drop sep.length)
      else (findSplit sep s).map (fun p => (c :: p.1, p.2)) := by
  by_cases h : startsWithL sep (c :: s) = true
  · simp [findSplit, h]
  · cases hf : findSplit sep s with
    | none => simp [findSplit, h, hf]
    | some pr =>
      obtain ⟨pre, post⟩ := pr
      simp [findSplit, h, hf]

theorem containsSub_cons (sep : Str) (c : Char) (s : Str) :
    containsSub sep (c :: s) = (startsWithL sep (c :: s) || containsSub sep s) := by
  rw [containsSub, containsSub, findSplit_cons]
  by_cases h : startsWithL sep (c :: s) = true
  · simp [h]
  · cases hf : findSplit sep s <;> simp [h, hf]

theorem containsSub_cons_elim (sep : Str) (c : Char) (s : Str)
    (h : containsSub sep (c :: s) = false) :
    startsWithL sep (c :: s) = false ∧ containsSub sep s = false := by
  rw [containsSub_cons] at h
  exact ⟨by simpa using (Bool.or_eq_false_iff.mp h).1,
    (Bool.or_eq_false_iff.mp h).2⟩

theorem findSplit_marker (x y : Char) (hx : x ≠ ' ') (hy : y ≠ ' ') (T : Str) :
    ∀ P : Str, containsSub [x, y] P = false →
      findSplit [x, y] (P ++ ' ' :: x :: y :: T) = some (P ++ [' '], T) := by
  intro P
  induction P with
  | nil =>
    intro _
    have h1 : startsWithL [x, y] (' ' :: x :: y :: T) = false := by
      simp [startsWithL, hx]
    have h2 : findSplit [x, y] (x :: y :: T) = some ([], T) := by
      rw [findSplit_cons]
      simp [startsWithL]
    simp only [List.nil_append]
    rw [findSplit_cons, h1]
    simp [h2]
  | cons c P' ih =>
    intro hP
    obtain ⟨hh, hP'⟩ := containsSub_cons_elim _ _ _ hP
    have hns : startsWithL [x, y] (c :: (P' ++ ' ' :: x :: y :: T)) = false := by
      cases P' with
      | nil =>
        simp only [List.nil_append]
        simp [startsWithL, hy]
      | cons d P'' =>
        have heq : startsWithL [x, y] (c :: d :: (P'' ++ ' ' :: x :: y :: T)) =
            startsWithL [x, y] (c :: d :: P'') := by
          simp [startsWithL]
        simp only [List.cons_append] at heq ⊢
        rw [heq]
        exact hh
    rw [List.cons_append, findSplit_cons, hns]
    simp only [Bool.false_eq_true, if_false]
    rw [ih hP']
    simp

theorem findSplit_eq_parts (sep : Str) :
    ∀ s pre post : Str, findSplit sep s = some (pre, post) →
      s = pre ++ sep ++ post ∧ containsSub sep pre = false := by
  intro s
  induction s with
  | nil => intro pre post h; simp [findSplit] at h
  | cons c rest ih =>
    intro pre post h
    rw [findSplit_cons] at h
    by_cases hs : startsWithL sep (c :: rest) = true
    · rw [if_pos hs] at h
      obtain ⟨h1, h2⟩ := Prod.mk.injEq .. ▸ (Option.some.injEq .. ▸ h)
      refine ⟨?_, ?_⟩
      · rw [← h1, ← h2]
        simpa using startsWithL_decomp sep (c :: rest) hs
      · rw [← h1]; rfl
    · rw [if_neg hs] at h
      cases hf : findSplit sep rest with
      | none => rw [hf] at h; simp at h
      | some pr =>
        obtain ⟨pre2, post2⟩ := pr
        rw [hf] at h
        simp at h
        obtain ⟨hpre, hpost⟩ := h
        obtain ⟨hdec, hcon⟩ := ih pre2 post2 hf
        constructor
        · rw [← hpre, ← hpost, List.cons_append, List.cons_append, ← hdec]
        · rw [← hpre, containsSub_cons]
          have hsw : startsWithL sep (c :: pre2) = false := by
            by_contra hb
            rw [Bool.not_eq_false] at hb
            have hext := startsWithL_append_extend sep (c :: pre2) (sep ++ post2) hb
            have hre : (c :: pre2) ++ (sep ++ post2) = c :: rest := by
              rw [hdec]
              simp
            rw [hre] at hext
            exact hs hext
          rw [hsw, hcon]
          rfl

theorem findSplit_post_lt (sep : Str) (hsep : sep ≠ []) :
    ∀ s pre post : Str, findSplit sep s = some (pre, post) →
      post.length < s.length := by
  intro s
  induction s with
  | nil => intro pre post h; simp [findSplit] at h
  | cons c rest ih =>
    intro pre post h
    rw [findSplit_cons] at h
    by_cases hs : startsWithL sep (c :: rest) = true
    · rw [if_pos hs] at h
      simp only [Option.some.injEq, Prod.mk.injEq] at h
      have hpost : post = (c :: rest).drop sep.length := h.2.symm
      have hlen : sep.length ≥ 1 := by
        cases sep with
        | nil => exact absurd rfl hsep
        | cons a b => simp
      rw [hpost, List.length_drop]
      simp only [List.length_cons]
      omega
    · rw [if_neg hs] at h
      cases hf : findSplit sep rest with
      | none => rw [hf] at h; simp at h
      | some pr =>
        obtain ⟨pre2, post2⟩ := pr
        rw [hf] at h
        simp at h
        have := ih pre2 post2 hf
        rw [← h.2]
        simp only [List.length_cons]
        omega

theorem containsSub_of_parts (sep v : Str) (hsep : sep ≠ []) :
    ∀ u : Str, containsSub sep (u ++ sep ++ v) = true := by
  intro u
  induction u with
  | nil =>
    cases sep with
    | nil => exact absurd rfl hsep
    | cons d sep2 =>
      rw [List.nil_append, containsSub, List.cons_append, findSplit_cons,
        if_pos (by simpa using startsWithL_append_self (d :: sep2) v)]
      rfl
  | cons c u2 ih =>
    have hshape : (c :: u2) ++ sep ++ v = c :: (u2 ++ sep ++ v) := by simp
    rw [hshape, containsSub, findSplit_cons]
    by_cases hs : startsWithL sep (c :: (u2 ++ sep ++ v)) = true
    · rw [if_pos hs]; rfl
    · rw [if_neg hs]
      rw [containsSub] at ih
      cases hf : findSplit sep (u2 ++ sep ++ v) with
      | none => rw [hf] at ih; simp at ih
      | some pr => simp

theorem containsSub_infix_false (sep s b : Str) (hsep : sep ≠ [])
    (h : containsSub sep b = false) (hinf : s <:+: b) :
    containsSub sep s = false := by
  by_contra hc
  rw [Bool.not_eq_false, containsSub] at hc
  cases hf : findSplit sep s with
  | none => rw [hf] at hc; simp at hc
  | some pr =>
    obtain ⟨pre, post⟩ := pr
    obtain ⟨hdec, _⟩ := findSplit_eq_parts sep s pre post hf
    obtain ⟨u, w, huw⟩ := hinf
    have hb : b = (u ++ pre) ++ sep ++ (post ++ w) := by
      rw [← huw, hdec]
      simp [List.append_assoc]
    have htrue := containsSub_of_parts sep (post ++ w) hsep (u ++ pre)
    rw [← hb] at htrue
    rw [h] at htrue
    simp at htrue

theorem pyStrip_infix_self (s : Str) : pyStrip s <:+: s := by
  obtain ⟨w, hw⟩ := stripEnd_preL (stripStart s)
  obtain ⟨t, htl⟩ := stripStart_suffix s
  exact ⟨t, w, by rw [List.append_assoc, pyStrip, hw, htl]⟩

theorem splitAfterFirst_infix_self (c : Char) (s : Str) : splitAfterFirst c s <:+: s := by
  rw [splitAfterFirst]
  cases hf : findSplit [c] s with
  | none => exact ⟨[], [], by simp⟩
  | some pr =>
    obtain ⟨pre, post⟩ := pr
    obtain ⟨hdec, _⟩ := findSplit_eq_parts [c] s pre post hf
    exact ⟨pre ++ [c], [], by simp [hdec, List.append_assoc]⟩

theorem pySplitFuel_zero (sep s : Str) : pySplitFuel sep 0 s = [s] := rfl

theorem pySplitFuel_succ_none (sep : Str) (f : Nat) (s : Str)
    (hf : findSplit sep s = none) : pySplitFuel sep (f + 1) s = [s] := by
  simp [pySplitFuel, hf]

theorem pySplitFuel_succ_some (sep : Str) (f : Nat) (s pre post : Str)
    (hf : findSplit sep s = some (pre, post)) :
    pySplitFuel sep (f + 1) s = pre :: pySplitFuel sep f post := by
  simp [pySplitFuel, hf]

theorem pySplitFuel_congr (sep : Str) (hsep : sep ≠ []) :
    ∀ f g : Nat, ∀ s : Str, s.length ≤ f → s.length ≤ g →
      pySplitFuel sep f s = pySplitFuel sep g s := by
  intro f
  induction f with
  | zero =>
    intro g s h1 _
    have hs : s = [] := List.eq_nil_of_length_eq_zero (Nat.le_zero.mp h1)
    subst hs
    cases g with
    | zero => rfl
    | succ g2 => rw [pySplitFuel_succ_none sep g2 [] rfl, pySplitFuel_zero]
  | succ f2 ih =>
    intro g s h1 h2
    cases g with
    | zero =>
      have hs : s = [] := List.eq_nil_of_length_eq_zero (Nat.le_zero.mp h2)
      subst hs
      rw [pySplitFuel_succ_none sep f2 [] rfl, pySplitFuel_zero]
    | succ g2 =>
      cases hf : findSplit sep s with
      | none => rw [pySplitFuel_succ_none sep f2 s hf, pySplitFuel_succ_none sep g2 s hf]
      | some pr =>
        obtain ⟨pre, post⟩ := pr
        have hlt := findSplit_post_lt sep hsep s pre post hf
        rw [pySplitFuel_succ_some sep f2 s pre post hf,
          pySplitFuel_succ_some sep g2 s pre post hf,
          ih g2 post (by omega) (by omega)]

theorem pySplitFuel_eq_pySplit (sep : Str) (hsep : sep ≠ []) (f : Nat) (s : Str)
    (h : s.length ≤ f) : pySplitFuel sep f s = pySplit sep s :=
  pySplitFuel_congr sep hsep f s.length s h (le_refl _)

theorem pySplit_no_sep (sep s : Str) (h : containsSub sep s = false) :
    pySplit sep s = [s] := by
  have hn : findSplit sep s = none := by
    rw [containsSub] at h
    exact Option.not_isSome_iff_eq_none.mp (by simp [h])
  rw [pySplit]
  cases hl : s.length with
  | zero => rfl
  | succ n => rw [pySplitFuel_succ_none sep n s hn]

theorem pySplit_marker (x y : Char) (hx : x ≠ ' ') (hy : y ≠ ' ') (P T : Str)
    (hP : containsSub [x, y] P = false) :
    pySplit [x, y] (P ++ ' ' :: x :: y :: T) = (P ++ [' ']) :: pySplit [x, y] T := by
  have hfs := findSplit_marker x y hx hy T P hP
  have hlen : (P ++ ' ' :: x :: y :: T).length = P.length + T.length + 3 := by
    simp [List.length_append]
    omega
  obtain ⟨n, hn⟩ : ∃ n, (P ++ ' ' :: x :: y :: T).length = n + 1 :=
    ⟨P.length + T.length + 2, by omega⟩
  rw [pySplit, hn, pySplitFuel_succ_some [x, y] n _ _ _ hfs,
    pySplitFuel_eq_pySplit [x, y] (by simp) n T (by omega)]

theorem pySplit_members_no_sep (sep : Str) (hsep : sep ≠ []) :
    ∀ f : Nat, ∀ s e : Str, s.length ≤ f → e ∈ pySplitFuel sep f s →
      containsSub sep e = false := by
  intro f
  induction f with
  | zero =>
    intro s e h1 hmem
    have hs : s = [] := List.eq_nil_of_length_eq_zero (Nat.le_zero.mp h1)
    subst hs
    rw [pySplitFuel_zero] at hmem
    simp only [List.mem_singleton] at hmem
    subst hmem
    rfl
  | succ f2 ih =>
    intro s e h1 hmem
    cases hf : findSplit sep s with
    | none =>
      rw [pySplitFuel_succ_none sep f2 s hf] at hmem
      simp only [List.mem_singleton] at hmem
      subst hmem
      rw [containsSub, hf]
      rfl
    | some pr =>
      obtain ⟨pre, post⟩ := pr
      rw [pySplitFuel_succ_some sep f2 s pre post hf] at hmem
      simp only [List.mem_cons] at hmem
      cases hmem with
      | inl he =>
        rw [he]
        exact (findSplit_eq_parts sep s pre post hf).2
      | inr he =>
        have hlt := findSplit_post_lt sep hsep s pre post hf
        exact ih post e (by omega) he

theorem pySplit_member_no_sep (sep s e : Str) (hsep : sep ≠ [])
    (he : e ∈ pySplit sep s) : containsSub sep e = false :=
  pySplit_members_no_sep sep hsep s.length s e (le_refl _) he


/-! Lemmas combining containment with appends, and parse-level facts. -/

theorem containsSub_append_false (x y : Char) (t : Str)
    (ht : containsSub [x, y] t = false) :
    ∀ s : Str, containsSub [x, y] s = false →
      (s.getLast? = some x → t.head? = some y → False) →
      containsSub [x, y] (s ++ t) = false := by
  intro s
  induction s with
  | nil => intro _ _; simpa using ht
  | cons c s2 ih =>
    intro hs hb
    obtain ⟨hh, hs2⟩ := containsSub_cons_elim _ _ _ hs
    rw [List.cons_append, containsSub_cons]
    have hb2 : s2.getLast? = some x → t.head? = some y → False := by
      intro h1 h2
      have hs2ne : s2 ≠ [] := by
        intro hnil
        rw [hnil] at h1
        simp at h1
      obtain ⟨d, s3, rfl⟩ := List.exists_cons_of_ne_nil hs2ne
      exact hb (by rw [List.getLast?_cons_cons]; exact h1) h2
    have hstart : startsWithL [x, y] (c :: (s2 ++ t)) = false := by
      cases s2 with
      | nil =>
        cases t with
        | nil => simp [startsWithL]
        | cons e t2 =>
          by_cases hxc : x = c
          · by_cases hye : y = e
            · exact absurd (hb (by simp [hxc]) (by simp [hye])) (fun h => h)
            · simp [startsWithL, hye]
          · simp [startsWithL, hxc]
      | cons d s3 =>
        have heq : startsWithL [x, y] (c :: (d :: s3 ++ t)) =
            startsWithL [x, y] (c :: d :: s3) := by
          simp [startsWithL]
        rw [heq]
        exact hh
    rw [hstart, ih hs2 hb2]
    rfl

theorem parseParts_arrow (mp : Str) (opts : List Str) (t a : Str)
    (h : findSplit (strL "=>") mp = some (t, a)) :
    parseParts (mp :: opts) = finishEntry t a opts := by
  simp [parseParts, h]

theorem parseParts_dash (mp : Str) (opts : List Str) (t a : Str)
    (h1 : findSplit (strL "=>") mp = none)
    (h2 : findSplit (strL "->") mp = some (t, a)) :
    parseParts (mp :: opts) = finishEntry t a opts := by
  simp [parseParts, h1, h2]

theorem parseParts_none (mp : Str) (opts : List Str)
    (h1 : findSplit (strL "=>") mp = none)
    (h2 : findSplit (strL "->") mp = none) :
    parseParts (mp :: opts) = none := by
  simp [parseParts, h1, h2]

theorem parse_mapping_line_ne (line : Str) (hne : line ≠ []) :
    parse_mapping_line line =
      parseParts (((pySplit (strL "||") line).map pyStrip).filter (fun p => p ≠ [])) := by
  rw [parse_mapping_line, if_neg hne]

theorem finishEntry_pos (t_raw a_raw : Str) (opts : List Str)
    (ha : pyStrip a_raw ≠ []) (ht : pyStrip t_raw ≠ []) :
    finishEntry t_raw a_raw opts =
      some ⟨pyStrip a_raw, pyStrip t_raw, (opts.foldl optStep (strL "keep", [])).1,
        (opts.foldl optStep (strL "keep", [])).2⟩ := by
  rw [finishEntry, if_neg (by simp [ha, ht])]

theorem parse_line_simple (A B : Str)
    (hA : pyStrip A = A) (hB : pyStrip B = B) (hAne : A ≠ []) (hBne : B ≠ [])
    (hA2 : containsSub (strL "=>") A = false)
    (hA3 : containsSub (strL "||") A = false)
    (hB3 : containsSub (strL "||") B = false) :
    parse_mapping_line (A ++ strL " => " ++ B) = some ⟨B, A, strL "keep", []⟩ := by
  obtain ⟨hA1, hAe⟩ := (pyStrip_eq_self_iff A).mp hA
  obtain ⟨hB1, hBe⟩ := (pyStrip_eq_self_iff B).mp hB
  have hlne : A ++ strL " => " ++ B ≠ [] := by
    intro hh
    have hlen := congrArg List.length hh
    simp [List.length_append] at hlen
    exact hAne hlen.1
  have hmid : containsSub (strL "||") (strL " => " ++ B) = false := by
    have hb3 : containsSub ['|', '|'] B = false := hB3
    show containsSub ['|', '|'] (' ' :: '=' :: '>' :: ' ' :: B) = false
    rw [containsSub_cons, containsSub_cons, containsSub_cons, containsSub_cons, hb3]
    simp [startsWithL]
  have hline : containsSub (strL "||") (A ++ strL " => " ++ B) = false := by
    rw [List.append_assoc]
    refine containsSub_append_false '|' '|' (strL " => " ++ B) hmid A hA3 ?_
    intro _ h2
    have hhd : (strL " => " ++ B).head? = some ' ' := rfl
    rw [hhd] at h2
    simp at h2
  have hfix : pyStrip (A ++ strL " => " ++ B) = A ++ strL " => " ++ B :=
    pyStrip_fix_of_ends A (strL " => ") B hA1 hAne hBe hBne
  have hparts :
      (((pySplit (strL "||") (A ++ strL " => " ++ B)).map pyStrip).filter
        (fun p => p ≠ [])) = [A ++ strL " => " ++ B] := by
    rw [pySplit_no_sep _ _ hline, List.map_cons, List.map_nil, hfix]
    simp [hlne]
    intro h0
    exact absurd h0 hAne
  have hsplit : findSplit (strL "=>") (A ++ strL " => " ++ B) =
      some (A ++ [' '], ' ' :: B) := by
    have h0 : A ++ strL " => " ++ B = A ++ ' ' :: '=' :: '>' :: (' ' :: B) := by
      rw [List.append_assoc]
      rfl
    rw [h0]
    exact findSplit_marker '=' '>' (by decide) (by decide) (' ' :: B) A hA2
  have hstr_a : pyStrip (' ' :: B) = B := by rw [pyStrip_cons_space]; exact hB
  have hstr_t : pyStrip (A ++ [' ']) = A := by rw [pyStrip_append_space]; exact hA
  rw [parse_mapping_line_ne _ hlne, hparts,
    parseParts_arrow _ _ _ _ hsplit,
    finishEntry_pos _ _ _ (by rw [hstr_a]; exact hBne) (by rw [hstr_t]; exact hAne),
    hstr_a, hstr_t]
  rfl

theorem parse_line_record (C A : Str)
    (hC : pyStrip C = C) (hA : pyStrip A = A) (hCne : C ≠ []) (hAne : A ≠ [])
    (hC2 : containsSub (strL "=>") C = false)
    (hC3 : containsSub (strL "||") C = false)
    (hA3 : containsSub (strL "||") A = false) :
    parse_mapping_line (C ++ strL " => " ++ A ++ strL " || reply_mode=keep || reply=") =
      some ⟨A, C, strL "custom", []⟩ := by
  obtain ⟨hC1, hCe⟩ := (pyStrip_eq_self_iff C).mp hC
  obtain ⟨hA1, hAe⟩ := (pyStrip_eq_self_iff A).mp hA
  have hmid : containsSub (strL "||") (strL " => " ++ A) = false := by
    have ha3 : containsSub ['|', '|'] A = false := hA3
    show containsSub ['|', '|'] (' ' :: '=' :: '>' :: ' ' :: A) = false
    rw [containsSub_cons, containsSub_cons, containsSub_cons, containsSub_cons, ha3]
    simp [startsWithL]
  have hP : containsSub (strL "||") (C ++ strL " => " ++ A) = false := by
    rw [List.append_assoc]
    refine containsSub_append_false '|' '|' (strL " => " ++ A) hmid C hC3 ?_
    intro _ h2
    have hhd : (strL " => " ++ A).head? = some ' ' := rfl
    rw [hhd] at h2
    simp at h2
  have hPfix : pyStrip (C ++ strL " => " ++ A) = C ++ strL " => " ++ A :=
    pyStrip_fix_of_ends C (strL " => ") A hC1 hCne hAe hAne
  have hPne : C ++ strL " => " ++ A ≠ [] := by
    obtain ⟨c, C2, hCeq⟩ := List.exists_cons_of_ne_nil hCne
    rw [hCeq]
    simp
  have hlne : C ++ strL " => " ++ A ++ strL " || reply_mode=keep || reply=" ≠ [] := by
    obtain ⟨c, C2, hCeq⟩ := List.exists_cons_of_ne_nil hCne
    rw [hCeq]
    simp
  have hps : pySplit (strL "||")
        (C ++ strL " => " ++ A ++ strL " || reply_mode=keep || reply=") =
      ((C ++ strL " => " ++ A) ++ [' ']) ::
        pySplit (strL "||") (strL " reply_mode=keep || reply=") := by
    have h0 : C ++ strL " => " ++ A ++ strL " || reply_mode=keep || reply=" =
        (C ++ strL " => " ++ A) ++ ' ' :: '|' :: '|' :: strL " reply_mode=keep || reply=" :=
      rfl
    rw [h0]
    exact pySplit_marker '|' '|' (by decide) (by decide) _ _ hP
  have hsplitT : pySplit (strL "||") (strL " reply_mode=keep || reply=") =
      [strL " reply_mode=keep ", strL " reply="] := by decide
  have hm1 : pyStrip ((C ++ strL " => " ++ A) ++ [' ']) = C ++ strL " => " ++ A := by
    rw [pyStrip_append_space]
    exact hPfix
  have hm2 : pyStrip (strL " reply_mode=keep ") = strL "reply_mode=keep" := by decide
  have hm3 : pyStrip (strL " reply=") = strL "reply=" := by decide
  have hparts :
      (((pySplit (strL "||")
          (C ++ strL " => " ++ A ++ strL " || reply_mode=keep || reply=")).map
            pyStrip).filter (fun p => p ≠ [])) =
        (C ++ strL " => " ++ A) :: [strL "reply_mode=keep", strL "reply="] := by
    rw [hps, hsplitT, List.map_cons, List.map_cons, List.map_cons, List.map_nil,
      hm1, hm2, hm3, List.filter_cons, if_pos (by simp [hCne]),
      List.filter_cons, if_pos (by decide), List.filter_cons, if_pos (by decide),
      List.filter_nil]
  have hsplitP : findSplit (strL "=>") (C ++ strL " => " ++ A) =
      some (C ++ [' '], ' ' :: A) := by
    have h0 : C ++ strL " => " ++ A = C ++ ' ' :: '=' :: '>' :: (' ' :: A) := by
      rw [List.append_assoc]
      rfl
    rw [h0]
    exact findSplit_marker '=' '>' (by decide) (by decide) (' ' :: A) C hC2
  have hstr_a : pyStrip (' ' :: A) = A := by rw [pyStrip_cons_space]; exact hA
  have hstr_t : pyStrip (C ++ [' ']) = C := by rw [pyStrip_append_space]; exact hC
  have hfold : List.foldl optStep (strL "keep", [])
      [strL "reply_mode=keep", strL "reply="] = (strL "custom", []) := by decide
  rw [parse_mapping_line_ne _ hlne, hparts,
    parseParts_arrow _ _ _ _ hsplitP,
    finishEntry_pos _ _ _ (by rw [hstr_a]; exact hAne) (by rw [hstr_t]; exact hCne),
    hstr_a, hstr_t, hfold]

/-! Lemmas characterizing the matcher. -/

theorem entryMatches_skip_alias (ps : List Str) (msg : Str) (ent : MappingEntry)
    (h1 : strip_wake (normalize_text ent.alias_raw) ps = []) :
    entryMatches ps msg ent = false := by
  simp [entryMatches, h1]

theorem entryMatches_skip_cond (ps : List Str) (msg : Str) (ent : MappingEntry)
    (h2 : ¬(msg = strip_wake (normalize_text ent.alias_raw) ps ∨
      startsWithL (strip_wake (normalize_text ent.alias_raw) ps ++ [' ']) msg = true)) :
    entryMatches ps msg ent = false := by
  push_neg at h2
  simp [entryMatches, h2.1, h2.2]

theorem entryMatches_skip_target (ps : List Str) (msg : Str) (ent : MappingEntry)
    (h3 : strip_wake (normalize_text ent.target_raw) ps = []) :
    entryMatches ps msg ent = false := by
  simp [entryMatches, h3]

theorem entryMatches_hit (ps : List Str) (msg : Str) (ent : MappingEntry)
    (h1 : strip_wake (normalize_text ent.alias_raw) ps ≠ [])
    (h2 : msg = strip_wake (normalize_text ent.alias_raw) ps ∨
      startsWithL (strip_wake (normalize_text ent.alias_raw) ps ++ [' ']) msg = true)
    (h3 : strip_wake (normalize_text ent.target_raw) ps ≠ []) :
    entryMatches ps msg ent = true := by
  rcases h2 with h2 | h2
  · simp [entryMatches, h1, h2, h3]
  · simp [entryMatches, h1, h2, h3]

theorem apply_loop_eq_find (ps : List Str) (msg : Str) (e : Event) :
    ∀ ms : List MappingEntry,
      apply_loop ps msg e ms =
        match ms.find? (entryMatches ps msg) with
        | none => (false, e)
        | some ent => (true, applyEv ps msg e ent) := by
  intro ms
  induction ms with
  | nil => rfl
  | cons ent rest ih =>
    simp only [apply_loop]
    by_cases h1 : strip_wake (normalize_text ent.alias_raw) ps = []
    · rw [if_pos h1, ih,
        List.find?_cons_of_neg _ (by simp [entryMatches_skip_alias ps msg ent h1])]
    · rw [if_neg h1]
      by_cases h2 : msg = strip_wake (normalize_text ent.alias_raw) ps ∨
          startsWithL (strip_wake (normalize_text ent.alias_raw) ps ++ [' ']) msg = true
      · rw [if_pos h2]
        by_cases h3 : strip_wake (normalize_text ent.target_raw) ps = []
        · rw [if_pos h3, ih,
            List.find?_cons_of_neg _ (by simp [entryMatches_skip_target ps msg ent h3])]
        · rw [if_neg h3,
            List.find?_cons_of_pos _ (entryMatches_hit ps msg ent h1 h2 h3)]
      · rw [if_neg h2, ih,
          List.find?_cons_of_neg _ (by simp [entryMatches_skip_cond ps msg ent h2])]

theorem apply_mapping_eq_find (store : RuleStore) (ps : List Str) (e : Event)
    (hen : store.enabled = true) (hap : e.applied = false)
    (hwk : e.is_at_or_wake_command = true)
    (hmsg : normalize_text e.message_str ≠ []) :
    apply_mapping store ps e =
      match store.mappings.find? (entryMatches ps (normalize_text e.message_str)) with
      | none => (false, e)
      | some ent => (true, applyEv ps (normalize_text e.message_str) e ent) := by
  by_cases hmp : store.mappings = []
  · rw [apply_mapping, if_pos (Or.inr hmp), hmp]
    rfl
  · simp only [apply_mapping]
    rw [if_neg (by simp [hen, hmp]), if_neg (by simp [hap]), if_neg (by simp [hwk]),
      if_neg hmsg]
    exact apply_loop_eq_find ps (normalize_text e.message_str) e store.mappings

theorem apply_loop_false_frame (ps : List Str) (msg : Str) (e : Event) :
    ∀ ms : List MappingEntry, (apply_loop ps msg e ms).1 = false →
      (apply_loop ps msg e ms).2 = e := by
  intro ms
  rw [apply_loop_eq_find]
  cases ms.find? (entryMatches ps msg) with
  | none => intro _; rfl
  | some ent => intro h; simp at h

theorem apply_mapping_false_frame (store : RuleStore) (ps : List Str) (e : Event)
    (h : (apply_mapping store ps e).1 = false) : (apply_mapping store ps e).2 = e := by
  simp only [apply_mapping] at h ⊢
  by_cases h1 : store.enabled = false ∨ store.mappings = []
  · rw [if_pos h1]
  · rw [if_neg h1] at h ⊢
    by_cases h2 : e.applied = true
    · rw [if_pos h2] at h
      simp at h
    · rw [if_neg h2] at h ⊢
      by_cases h3 : e.is_at_or_wake_command = false
      · rw [if_pos h3]
      · rw [if_neg h3] at h ⊢
        by_cases h4 : normalize_text e.message_str = []
        · rw [if_pos h4]
        · rw [if_neg h4] at h ⊢
          exact apply_loop_false_frame ps _ e store.mappings h

/-! Inversion lemmas about the parser, and preservation of the invariants. -/

theorem finishEntry_inv (t_raw a_raw : Str) (opts : List Str) (ent : MappingEntry)
    (h : finishEntry t_raw a_raw opts = some ent) :
    ent = ⟨pyStrip a_raw, pyStrip t_raw, (opts.foldl optStep (strL "keep", [])).1,
        (opts.foldl optStep (strL "keep", [])).2⟩ ∧
      pyStrip a_raw ≠ [] ∧ pyStrip t_raw ≠ [] := by
  rw [finishEntry] at h
  by_cases hc : pyStrip a_raw = [] ∨ pyStrip t_raw = []
  · rw [if_pos hc] at h
    exact absurd h (by simp)
  · rw [if_neg hc] at h
    push_neg at hc
    simp only [Option.some.injEq] at h
    exact ⟨h.symm, hc.1, hc.2⟩

theorem parseParts_inv (parts : List Str) (ent : MappingEntry)
    (h : parseParts parts = some ent) :
    ∃ mp opts t_raw a_raw,
      parts = mp :: opts ∧
      finishEntry t_raw a_raw opts = some ent := by
  cases parts with
  | nil => exact absurd h (by simp [parseParts])
  | cons mp opts =>
    cases h1 : findSplit (strL "=>") mp with
    | some pr =>
      obtain ⟨t, a⟩ := pr
      rw [parseParts_arrow _ _ _ _ h1] at h
      exact ⟨mp, opts, t, a, rfl, h⟩
    | none =>
      cases h2 : findSplit (strL "->") mp with
      | some pr =>
        obtain ⟨t, a⟩ := pr
        rw [parseParts_dash _ _ _ _ h1 h2] at h
        exact ⟨mp, opts, t, a, rfl, h⟩
      | none =>
        rw [parseParts_none _ _ h1 h2] at h
        exact absurd h (by simp)

theorem parse_mapping_line_fields (line : Str) (ent : MappingEntry)
    (h : parse_mapping_line line = some ent) :
    ent.alias_raw ≠ [] ∧ ent.target_raw ≠ [] := by
  by_cases hl : line = []
  · rw [parse_mapping_line, if_pos hl] at h
    exact absurd h (by simp)
  · rw [parse_mapping_line_ne _ hl] at h
    obtain ⟨mp, opts, t, a, _, hfin⟩ := parseParts_inv _ _ h
    obtain ⟨hent, ha, ht⟩ := finishEntry_inv _ _ _ _ hfin
    rw [hent]
    exact ⟨ha, ht⟩

theorem build_mapping_from_config_fields (command alias_text : Option Str)
    (silent : Bool) (reply_text : Option Str) (ent : MappingEntry)
    (h : build_mapping_from_config command alias_text silent reply_text = some ent) :
    ent.alias_raw ≠ [] ∧ ent.target_raw ≠ [] := by
  simp only [build_mapping_from_config] at h
  by_cases hc : read_str command = [] ∨ read_str alias_text = []
  · rw [if_pos hc] at h
    exact absurd h (by simp)
  · rw [if_neg hc] at h
    push_neg at hc
    simp only [Option.some.injEq] at h
    rw [← h]
    exact ⟨hc.2, hc.1⟩

theorem optStep_no_bars (acc : Str × Str) (opt : Str)
    (hacc : containsSub (strL "||") acc.2 = false)
    (hopt : containsSub (strL "||") opt = false) :
    containsSub (strL "||") (optStep acc opt).2 = false := by
  have hstrip : containsSub (strL "||") (pyStrip opt) = false :=
    containsSub_infix_false _ _ _ (by decide) hopt (pyStrip_infix_self opt)
  have hq1 : containsSub (strL "||")
      (pyStrip (splitAfterFirst '=' (pyStrip opt))) = false :=
    containsSub_infix_false _ _ _ (by decide) hstrip
      ((pyStrip_infix_self _).trans (splitAfterFirst_infix_self '=' (pyStrip opt)))
  have hq2 : containsSub (strL "||")
      (pyStrip (splitAfterFirst ':' (pyStrip opt))) = false :=
    containsSub_infix_false _ _ _ (by decide) hstrip
      ((pyStrip_infix_self _).trans (splitAfterFirst_infix_self ':' (pyStrip opt)))
  simp only [optStep]
  repeat' split
  all_goals first
    | exact hacc
    | exact hq1
    | exact hq2
    | exact hstrip

theorem foldl_optStep_no_bars (opts : List Str) :
    ∀ acc : Str × Str, containsSub (strL "||") acc.2 = false →
      (∀ o ∈ opts, containsSub (strL "||") o = false) →
      containsSub (strL "||") (opts.foldl optStep acc).2 = false := by
  induction opts with
  | nil => intro acc hacc _; exact hacc
  | cons o rest ih =>
    intro acc hacc hall
    rw [List.foldl_cons]
    exact ih (optStep acc o)
      (optStep_no_bars acc o hacc (hall o (List.mem_cons_self o rest)))
      (fun q hq => hall q (List.mem_cons_of_mem o hq))

theorem parse_reply_no_bars (line : Str) (ent : MappingEntry)
    (h : parse_mapping_line line = some ent) :
    containsSub (strL "||") ent.reply_text = false := by
  by_cases hl : line = []
  · rw [parse_mapping_line, if_pos hl] at h
    exact absurd h (by simp)
  · rw [parse_mapping_line_ne _ hl] at h
    have hmem : ∀ p ∈ ((pySplit (strL "||") line).map pyStrip).filter
        (fun p => p ≠ []), containsSub (strL "||") p = false := by
      intro p hp
      rw [List.mem_filter] at hp
      obtain ⟨hp1, _⟩ := hp
      rw [List.mem_map] at hp1
      obtain ⟨q, hq1, hq2⟩ := hp1
      have hq := pySplit_member_no_sep (strL "||") line q (by decide) hq1
      rw [← hq2]
      exact containsSub_infix_false _ _ _ (by decide) hq (pyStrip_infix_self q)
    obtain ⟨mp, opts, t, a, hparts, hfin⟩ := parseParts_inv _ _ h
    obtain ⟨hent, _, _⟩ := finishEntry_inv _ _ _ _ hfin
    rw [hent]
    refine foldl_optStep_no_bars opts (strL "keep", []) (by decide) ?_
    intro o ho
    exact hmem o (by rw [hparts]; exact List.mem_cons_of_mem mp ho)

theorem read_str_stripped (v : Option Str) : pyStrip (read_str v) = read_str v := by
  cases v with
  | none => rfl
  | some s2 => exact pyStrip_idem s2

theorem itemToEntry_fields (it : Item) (ent : MappingEntry)
    (h : itemToEntry it = some ent) :
    ent.alias_raw ≠ [] ∧ ent.target_raw ≠ [] := by
  cases it with
  | line s2 => exact parse_mapping_line_fields _ _ h
  | record r =>
    simp only [itemToEntry] at h
    by_cases hc : read_str (pyOr r.command (pyOr r.target (pyOr r.cmd_zh1 r.cmd_zh2))) = []
        ∨ read_str (pyOr r.alias_k (pyOr r.mask (pyOr r.alias_zh1 r.alias_zh2))) = []
    · rw [if_pos hc] at h
      exact absurd h (by simp)
    · rw [if_neg hc] at h
      exact parse_mapping_line_fields _ _ h

theorem build_fixed_mapping_fields (command : Str) (d : Option FixedRec)
    (ent : MappingEntry) (h : build_fixed_mapping command d = some ent) :
    ent.alias_raw ≠ [] ∧ ent.target_raw ≠ [] := by
  cases d with
  | none => exact absurd h (by simp [build_fixed_mapping])
  | some d2 => exact build_mapping_from_config_fields _ _ _ _ _ h

theorem build_custom_mappings_fields (l : List CustomRec) (ent : MappingEntry)
    (h : ent ∈ build_custom_mappings l) :
    ent.alias_raw ≠ [] ∧ ent.target_raw ≠ [] := by
  rw [build_custom_mappings, List.mem_filterMap] at h
  obtain ⟨item, _, hi⟩ := h
  exact build_mapping_from_config_fields _ _ _ _ _ hi

theorem build_mappings_fields (l : List Item) (ent : MappingEntry)
    (h : ent ∈ build_mappings l) :
    ent.alias_raw ≠ [] ∧ ent.target_raw ≠ [] := by
  rw [build_mappings, List.mem_filterMap] at h
  obtain ⟨item, _, hi⟩ := h
  exact itemToEntry_fields _ _ hi

theorem build_mappings_from_text_fields (t : Str) (ent : MappingEntry)
    (h : ent ∈ build_mappings_from_text t) :
    ent.alias_raw ≠ [] ∧ ent.target_raw ≠ [] := by
  rw [build_mappings_from_text] at h
  by_cases ht : t = []
  · rw [if_pos ht] at h
    simp at h
  · rw [if_neg ht, List.mem_filterMap] at h
    obtain ⟨raw, _, hr⟩ := h
    by_cases h1 : pyStrip raw = []
    · rw [if_pos h1] at hr
      exact absurd hr (by simp)
    · rw [if_neg h1] at hr
      by_cases h2 : startsWithL (strL "#") (pyStrip raw) = true
          ∨ startsWithL (strL "//") (pyStrip raw) = true
          ∨ startsWithL (strL ";") (pyStrip raw) = true
      · rw [if_pos h2] at hr
        exact absurd hr (by simp)
      · rw [if_neg h2] at hr
        exact parse_mapping_line_fields _ _ hr

theorem load_mappings_fields (reset_rule new_rule : Option FixedRec)
    (custom_rules : List CustomRec) (rules_text : Str) (raw : List Item)
    (ent : MappingEntry)
    (h : ent ∈ load_mappings reset_rule new_rule custom_rules rules_text raw) :
    ent.alias_raw ≠ [] ∧ ent.target_raw ≠ [] := by
  rw [load_mappings] at h
  simp only [List.mem_append] at h
  rcases h with ((h | h) | h) | h
  · rcases h with h | h
    · cases hf : build_fixed_mapping (strL "/reset") reset_rule with
      | none => rw [hf] at h; simp at h
      | some e2 =>
        rw [hf] at h
        simp only [List.mem_singleton] at h
        rw [h]
        exact build_fixed_mapping_fields _ _ _ hf
    · cases hf : build_fixed_mapping (strL "/new") new_rule with
      | none => rw [hf] at h; simp at h
      | some e2 =>
        rw [hf] at h
        simp only [List.mem_singleton] at h
        rw [h]
        exact build_fixed_mapping_fields _ _ _ hf
  · exact build_custom_mappings_fields _ _ h
  · exact build_mappings_from_text_fields _ _ h
  · exact build_mappings_fields _ _ h

theorem itemToEntry_record_no_reply (r : MixedRec)
    (hm : r.reply_mode = none) (hmz : r.mode_zh = none)
    (ht : r.reply_text = none) (htz : r.reply_zh = none)
    (hcs : read_str (pyOr r.command (pyOr r.target (pyOr r.cmd_zh1 r.cmd_zh2))) ≠ [])
    (has : read_str (pyOr r.alias_k (pyOr r.mask (pyOr r.alias_zh1 r.alias_zh2))) ≠ [])
    (hc2 : containsSub (strL "=>")
      (read_str (pyOr r.command (pyOr r.target (pyOr r.cmd_zh1 r.cmd_zh2)))) = false)
    (hc3 : containsSub (strL "||")
      (read_str (pyOr r.command (pyOr r.target (pyOr r.cmd_zh1 r.cmd_zh2)))) = false)
    (ha3 : containsSub (strL "||")
      (read_str (pyOr r.alias_k (pyOr r.mask (pyOr r.alias_zh1 r.alias_zh2)))) = false) :
    itemToEntry (Item.record r) =
      some ⟨read_str (pyOr r.alias_k (pyOr r.mask (pyOr r.alias_zh1 r.alias_zh2))),
        read_str (pyOr r.command (pyOr r.target (pyOr r.cmd_zh1 r.cmd_zh2))),
        strL "custom", []⟩ := by
  simp only [itemToEntry]
  rw [if_neg (by
    intro hcon
    rcases hcon with hcon | hcon
    · exact hcs hcon
    · exact has hcon)]
  rw [hm, hmz, ht, htz]
  have e1 : read_text (pyOr none (pyOr none (some (strL "keep")))) = strL "keep" := by
    decide
  have e2 : read_text (pyOr none (pyOr none (some ([] : Str)))) = [] := by decide
  rw [e1, e2]
  have hshape :
      read_str (pyOr r.command (pyOr r.target (pyOr r.cmd_zh1 r.cmd_zh2))) ++ strL " => "
        ++ read_str (pyOr r.alias_k (pyOr r.mask (pyOr r.alias_zh1 r.alias_zh2)))
        ++ strL " || reply_mode=" ++ strL "keep" ++ strL " || reply=" ++ [] =
      read_str (pyOr r.command (pyOr r.target (pyOr r.cmd_zh1 r.cmd_zh2))) ++ strL " => "
        ++ read_str (pyOr r.alias_k (pyOr r.mask (pyOr r.alias_zh1 r.alias_zh2)))
        ++ strL " || reply_mode=keep || reply=" := by
    rw [List.append_nil, List.append_assoc, List.append_assoc]
    rfl
  rw [hshape]
  exact parse_line_record _ _ (read_str_stripped _) (read_str_stripped _)
    hcs has hc2 hc3 ha3

theorem itemToEntry_record_reply_no_bars (r : MixedRec) (ent : MappingEntry)
    (h : itemToEntry (Item.record r) = some ent) :
    containsSub (strL "||") ent.reply_text = false := by
  simp only [itemToEntry] at h
  by_cases hc : read_str (pyOr r.command (pyOr r.target (pyOr r.cmd_zh1 r.cmd_zh2))) = []
      ∨ read_str (pyOr r.alias_k (pyOr r.mask (pyOr r.alias_zh1 r.alias_zh2))) = []
  · rw [if_pos hc] at h
    exact absurd h (by simp)
  · rw [if_neg hc] at h
    exact parse_reply_no_bars _ _ h

theorem entryMatches_nil_msg (ps : List Str) (ent : MappingEntry) :
    entryMatches ps [] ent = false := by
  by_cases h : strip_wake (normalize_text ent.alias_raw) ps = []
  · simp [entryMatches, h]
  · obtain ⟨c, t, hct⟩ := List.exists_cons_of_ne_nil h
    simp [entryMatches, hct, startsWithL]

/-! Claim theorems. -/

/-- C1 counterexample: the inline line with left side "/t" and right side
"/a" yields alias_raw "/a", not "/t" as the claim (alias on the left)
would require. -/
theorem C1_counterexample :
    (parse_mapping_line (strL "/t => /a")).map MappingEntry.alias_raw =
      some (strL "/a") ∧
    some (strL "/a") ≠ some (strL "/t") := by
  decide

/-- C1 (amended): for every well-formed inline DSL line "A => B" with both
sides non-empty and already trimmed, no option segments and no separator
substrings inside the sides, the parser returns an entry with
alias_raw = B (the right side), target_raw = A (the left side) and
reply_mode = "keep" with empty reply text. -/
theorem C1_thm (A B : Str) (hA : pyStrip A = A) (hB : pyStrip B = B)
    (hAne : A ≠ []) (hBne : B ≠ [])
    (hA2 : containsSub (strL "=>") A = false)
    (hA3 : containsSub (strL "||") A = false)
    (hB3 : containsSub (strL "||") B = false) :
    parse_mapping_line (A ++ strL " => " ++ B) = some ⟨B, A, strL "keep", []⟩ :=
  parse_line_simple A B hA hB hAne hBne hA2 hA3 hB3

/-- C1 witness: the amended theorem evaluated on the line "/t => /a". -/
theorem C1_witness :
    pyStrip (strL "/t") = strL "/t" ∧ pyStrip (strL "/a") = strL "/a" ∧
    strL "/t" ≠ [] ∧ strL "/a" ≠ [] ∧
    containsSub (strL "=>") (strL "/t") = false ∧
    containsSub (strL "||") (strL "/t") = false ∧
    containsSub (strL "||") (strL "/a") = false ∧
    parse_mapping_line (strL "/t" ++ strL " => " ++ strL "/a") =
      some ⟨strL "/a", strL "/t", strL "keep", []⟩ :=
  ⟨by decide, by decide, by decide, by decide, by decide, by decide, by decide,
    C1_thm (strL "/t") (strL "/a") (by decide) (by decide) (by decide) (by decide)
      (by decide) (by decide) (by decide)⟩

/-- C2 counterexample: with wake prefix "@w", the first stored entry
(alias "/a", target "@w") satisfies the alias condition for message "/a",
yet the matcher skips it because its normalized wake-stripped target is
empty, and records the second entry's target "/real" instead. -/
theorem C2_counterexample :
    normalize_text (strL "/a") = strip_wake (normalize_text (strL "/a")) [strL "@w"] ∧
    (apply_mapping
        ⟨true, [⟨strL "/a", strL "@w", strL "keep", []⟩,
          ⟨strL "/a", strL "/real", strL "keep", []⟩]⟩
        [strL "@w"]
        { message_str := strL "/a", is_at_or_wake_command := true }).2.x_target =
      some (strL "/real") ∧
    some (strL "/real") ≠ some (strip_wake (normalize_text (strL "@w")) [strL "@w"]) := by
  decide

/-- C2 (amended): on an enabled store, an unprocessed wake command and a
non-empty normalized message, the matcher behaves exactly as selecting the
first entry in store order whose normalized wake-stripped alias is
non-empty and matches exactly or at a word boundary and whose normalized
wake-stripped target is non-empty (this is List.find?, which stops at the
first hit); and the message "/rx" never matches alias "/r". -/
theorem C2_thm (store : RuleStore) (ps : List Str) (e : Event)
    (hen : store.enabled = true) (hap : e.applied = false)
    (hwk : e.is_at_or_wake_command = true)
    (hmsg : normalize_text e.message_str ≠ []) :
    (apply_mapping store ps e =
      match store.mappings.find? (entryMatches ps (normalize_text e.message_str)) with
      | none => (false, e)
      | some ent => (true, applyEv ps (normalize_text e.message_str) e ent)) ∧
    entryMatches [] (strL "/rx") ⟨strL "/r", strL "/t", strL "keep", []⟩ = false :=
  ⟨apply_mapping_eq_find store ps e hen hap hwk hmsg, by decide⟩

/-- C2 witness: the amended theorem evaluated on a one-entry store and the
message "/r x". -/
theorem C2_witness :
    (⟨true, [⟨strL "/r", strL "/t", strL "keep", []⟩]⟩ : RuleStore).enabled = true ∧
    ({ message_str := strL "/r x", is_at_or_wake_command := true } : Event).applied
      = false ∧
    ({ message_str := strL "/r x", is_at_or_wake_command := true } :
      Event).is_at_or_wake_command = true ∧
    normalize_text (strL "/r x") ≠ [] ∧
    ((apply_mapping ⟨true, [⟨strL "/r", strL "/t", strL "keep", []⟩]⟩ []
        { message_str := strL "/r x", is_at_or_wake_command := true } =
      match (⟨true, [⟨strL "/r", strL "/t", strL "keep", []⟩]⟩ :
          RuleStore).mappings.find?
          (entryMatches [] (normalize_text (strL "/r x"))) with
      | none => (false, { message_str := strL "/r x", is_at_or_wake_command := true })
      | some ent => (true, applyEv [] (normalize_text (strL "/r x"))
          { message_str := strL "/r x", is_at_or_wake_command := true } ent)) ∧
      entryMatches [] (strL "/rx") ⟨strL "/r", strL "/t", strL "keep", []⟩ = false) :=
  ⟨rfl, rfl, rfl, by decide,
    C2_thm ⟨true, [⟨strL "/r", strL "/t", strL "keep", []⟩]⟩ []
      { message_str := strL "/r x", is_at_or_wake_command := true }
      rfl rfl rfl (by decide)⟩

/-- C6 counterexample: on an enabled non-empty store, an event already
carrying the applied flag makes the matcher return true (a match report),
not the "no match" the claim states; the event is indeed left unchanged. -/
theorem C6_counterexample :
    apply_mapping ⟨true, [⟨strL "/r", strL "/t", strL "keep", []⟩]⟩ []
        { message_str := strL "/r", is_at_or_wake_command := true, applied := true } =
      (true,
        { message_str := strL "/r", is_at_or_wake_command := true, applied := true }) ∧
    ¬((apply_mapping ⟨true, [⟨strL "/r", strL "/t", strL "keep", []⟩]⟩ []
        { message_str := strL "/r", is_at_or_wake_command := true,
          applied := true }).1 = false) := by
  decide

/-- C6 (amended): for every event already annotated as processed, the
matcher leaves the event unchanged, and it reports true (already matched)
whenever the store is enabled and non-empty, and false otherwise (the
enabled and non-empty checks run before the idempotency guard). -/
theorem C6_thm (store : RuleStore) (ps : List Str) (e : Event)
    (hap : e.applied = true) :
    (apply_mapping store ps e).2 = e ∧
    (apply_mapping store ps e).1 = (store.enabled && !store.mappings.isEmpty) := by
  simp only [apply_mapping]
  by_cases h1 : store.enabled = false ∨ store.mappings = []
  · rw [if_pos h1]
    refine ⟨rfl, ?_⟩
    rcases h1 with h1 | h1
    · rw [h1]
      rfl
    · rw [h1]
      simp
  · rw [if_neg h1, if_pos hap]
    push_neg at h1
    refine ⟨rfl, ?_⟩
    have hen : store.enabled = true := by
      cases hb : store.enabled
      · exact absurd hb h1.1
      · rfl
    rw [hen]
    cases hmp : store.mappings with
    | nil => exact absurd hmp h1.2
    | cons a l => simp

/-- C6 witness: the amended theorem evaluated on an enabled one-entry
store and an already-applied event. -/
theorem C6_witness :
    ({ message_str := strL "/r", is_at_or_wake_command := true, applied := true } :
      Event).applied = true ∧
    ((apply_mapping ⟨true, [⟨strL "/r", strL "/t", strL "keep", []⟩]⟩ []
        { message_str := strL "/r", is_at_or_wake_command := true,
          applied := true }).2 =
      { message_str := strL "/r", is_at_or_wake_command := true, applied := true } ∧
    (apply_mapping ⟨true, [⟨strL "/r", strL "/t", strL "keep", []⟩]⟩ []
        { message_str := strL "/r", is_at_or_wake_command := true,
          applied := true }).1 =
      ((⟨true, [⟨strL "/r", strL "/t", strL "keep", []⟩]⟩ : RuleStore).enabled &&
        !(⟨true, [⟨strL "/r", strL "/t", strL "keep", []⟩]⟩ :
          RuleStore).mappings.isEmpty)) :=
  ⟨rfl,
    C6_thm ⟨true, [⟨strL "/r", strL "/t", strL "keep", []⟩]⟩ []
      { message_str := strL "/r", is_at_or_wake_command := true, applied := true } rfl⟩

/-- C7: whenever the matcher reports no match (false) the event is
returned unchanged, whatever the reason for the miss; and with a disabled
store the matcher always returns false with the event unchanged, so no
message is ever rewritten. -/
theorem C7_thm :
    (∀ (store : RuleStore) (ps : List Str) (e : Event),
      (apply_mapping store ps e).1 = false → (apply_mapping store ps e).2 = e) ∧
    (∀ (store : RuleStore) (ps : List Str) (e : Event),
      store.enabled = false → apply_mapping store ps e = (false, e)) := by
  refine ⟨apply_mapping_false_frame, ?_⟩
  intro store ps e h
  simp only [apply_mapping]
  rw [if_pos (Or.inl h)]

/-- C7 witness: both parts evaluated on concrete stores and a concrete
event; the disabled store has a rule that would otherwise match. -/
theorem C7_witness :
    ((apply_mapping ⟨true, []⟩ []
        { message_str := strL "/x", is_at_or_wake_command := true }).1 = false ∧
      (apply_mapping ⟨true, []⟩ []
        { message_str := strL "/x", is_at_or_wake_command := true }).2 =
        { message_str := strL "/x", is_at_or_wake_command := true }) ∧
    ((⟨false, [⟨strL "/x", strL "/y", strL "keep", []⟩]⟩ : RuleStore).enabled
        = false ∧
      apply_mapping ⟨false, [⟨strL "/x", strL "/y", strL "keep", []⟩]⟩ []
        { message_str := strL "/x", is_at_or_wake_command := true } =
        (false, { message_str := strL "/x", is_at_or_wake_command := true })) :=
  ⟨⟨by decide,
    C7_thm.1 ⟨true, []⟩ []
      { message_str := strL "/x", is_at_or_wake_command := true } (by decide)⟩,
   ⟨rfl,
    C7_thm.2 ⟨false, [⟨strL "/x", strL "/y", strL "keep", []⟩]⟩ []
      { message_str := strL "/x", is_at_or_wake_command := true } rfl⟩⟩

/-- C8: every MappingEntry produced by any parser entry point, and every
entry assembled into the rule store by the configuration loader, has
non-empty alias_raw and non-empty target_raw; inputs violating this yield
no entry. -/
theorem C8_thm :
    (∀ (line : Str) (ent : MappingEntry), parse_mapping_line line = some ent →
      ent.alias_raw ≠ [] ∧ ent.target_raw ≠ []) ∧
    (∀ (c a : Option Str) (sil : Bool) (rt : Option Str) (ent : MappingEntry),
      build_mapping_from_config c a sil rt = some ent →
      ent.alias_raw ≠ [] ∧ ent.target_raw ≠ []) ∧
    (∀ (cmd : Str) (d : Option FixedRec) (ent : MappingEntry),
      build_fixed_mapping cmd d = some ent →
      ent.alias_raw ≠ [] ∧ ent.target_raw ≠ []) ∧
    (∀ (l : List CustomRec) (ent : MappingEntry), ent ∈ build_custom_mappings l →
      ent.alias_raw ≠ [] ∧ ent.target_raw ≠ []) ∧
    (∀ (t : Str) (ent : MappingEntry), ent ∈ build_mappings_from_text t →
      ent.alias_raw ≠ [] ∧ ent.target_raw ≠ []) ∧
    (∀ (l : List Item) (ent : MappingEntry), ent ∈ build_mappings l →
      ent.alias_raw ≠ [] ∧ ent.target_raw ≠ []) ∧
    (∀ (rr nr : Option FixedRec) (cr : List CustomRec) (tx : Str) (mx : List Item)
      (ent : MappingEntry), ent ∈ load_mappings rr nr cr tx mx →
      ent.alias_raw ≠ [] ∧ ent.target_raw ≠ []) :=
  ⟨parse_mapping_line_fields, build_mapping_from_config_fields,
    build_fixed_mapping_fields, build_custom_mappings_fields,
    build_mappings_from_text_fields, build_mappings_fields, load_mappings_fields⟩

/-- C8 witness: the parse-line part evaluated on "/a => /b". -/
theorem C8_witness :
    parse_mapping_line (strL "/a => /b") =
      some ⟨strL "/b", strL "/a", strL "keep", []⟩ ∧
    ((⟨strL "/b", strL "/a", strL "keep", []⟩ : MappingEntry).alias_raw ≠ [] ∧
      (⟨strL "/b", strL "/a", strL "keep", []⟩ : MappingEntry).target_raw ≠ []) :=
  ⟨by decide, C8_thm.1 (strL "/a => /b") ⟨strL "/b", strL "/a", strL "keep", []⟩
    (by decide)⟩

/-- C9: the structured record with command "/new", alias "/n" and
silent true parses to exactly the same MappingEntry as the inline DSL
line "/new => /n || silent". -/
theorem C9_thm :
    build_custom_mappings
        [{ command := some (strL "/new"), alias_k := some (strL "/n"), silent := true }] =
      [⟨strL "/n", strL "/new", strL "silent", []⟩] ∧
    parse_mapping_line (strL "/new => /n || silent") =
      some ⟨strL "/n", strL "/new", strL "silent", []⟩ := by
  decide

/-- C3: whenever an entry matches, the rewritten message is the
normalized wake-stripped target alone if the trimmed remainder of the
normalized message after the alias length is empty, and otherwise the
target, a space and that remainder; with alias "/new" mapped to target
"/reset", "/new session1" rewrites to "/reset session1" and "/new"
rewrites to "/reset". -/
theorem C3_thm :
    (∀ (store : RuleStore) (ps : List Str) (e : Event) (ent : MappingEntry),
      store.enabled = true → e.applied = false → e.is_at_or_wake_command = true →
      store.mappings.find? (entryMatches ps (normalize_text e.message_str)) = some ent →
      (apply_mapping store ps e).2.message_str =
        (if pyStrip ((normalize_text e.message_str).drop
            (strip_wake (normalize_text ent.alias_raw) ps).length) = []
        then strip_wake (normalize_text ent.target_raw) ps
        else strip_wake (normalize_text ent.target_raw) ps ++
          ' ' :: pyStrip ((normalize_text e.message_str).drop
            (strip_wake (normalize_text ent.alias_raw) ps).length))) ∧
    (apply_mapping ⟨true, [⟨strL "/new", strL "/reset", strL "keep", []⟩]⟩ []
      { message_str := strL "/new session1",
        is_at_or_wake_command := true }).2.message_str = strL "/reset session1" ∧
    (apply_mapping ⟨true, [⟨strL "/new", strL "/reset", strL "keep", []⟩]⟩ []
      { message_str := strL "/new",
        is_at_or_wake_command := true }).2.message_str = strL "/reset" := by
  refine ⟨?_, by decide, by decide⟩
  intro store ps e ent hen hap hwk hfind
  have hmsg : normalize_text e.message_str ≠ [] := by
    intro h0
    rw [h0] at hfind
    have hpred := List.find?_some hfind
    rw [entryMatches_nil_msg] at hpred
    exact absurd hpred (by simp)
  rw [apply_mapping_eq_find store ps e hen hap hwk hmsg, hfind]
  simp [applyEv]

/-- C3 witness: the general rewrite equation evaluated on a one-entry
store mapping alias "/new" to target "/reset" and the message
"/new session1". -/
theorem C3_witness :
    (⟨true, [⟨strL "/new", strL "/reset", strL "keep", []⟩]⟩ : RuleStore).enabled
      = true ∧
    ({ message_str := strL "/new session1", is_at_or_wake_command := true } :
      Event).applied = false ∧
    ({ message_str := strL "/new session1", is_at_or_wake_command := true } :
      Event).is_at_or_wake_command = true ∧
    (⟨true, [⟨strL "/new", strL "/reset", strL "keep", []⟩]⟩ :
        RuleStore).mappings.find?
        (entryMatches [] (normalize_text (strL "/new session1"))) =
      some ⟨strL "/new", strL "/reset", strL "keep", []⟩ ∧
    (apply_mapping ⟨true, [⟨strL "/new", strL "/reset", strL "keep", []⟩]⟩ []
        { message_str := strL "/new session1",
          is_at_or_wake_command := true }).2.message_str =
      (if pyStrip ((normalize_text (strL "/new session1")).drop
          (strip_wake (normalize_text (strL "/new")) []).length) = []
      then strip_wake (normalize_text (strL "/reset")) []
      else strip_wake (normalize_text (strL "/reset")) [] ++
        ' ' :: pyStrip ((normalize_text (strL "/new session1")).drop
          (strip_wake (normalize_text (strL "/new")) []).length)) :=
  ⟨rfl, rfl, rfl, by decide,
    C3_thm.1 ⟨true, [⟨strL "/new", strL "/reset", strL "keep", []⟩]⟩ []
      { message_str := strL "/new session1", is_at_or_wake_command := true }
      ⟨strL "/new", strL "/reset", strL "keep", []⟩ rfl rfl rfl (by decide)⟩

/-- C4: the reply policy applier is a no-op on events not annotated as
applied; on applied events, mode keep (including the unset default)
leaves the event untouched, mode silent always installs the empty result
whatever the recorded text, and mode custom installs the empty result for
blank recorded text and otherwise a plain-text result carrying the
recorded text verbatim. -/
theorem C4_thm :
    (∀ e : Event, e.applied = false → override_reply e = e) ∧
    (∀ e : Event, e.applied = true →
      e.x_reply_mode.getD (strL "keep") = strL "keep" → override_reply e = e) ∧
    (∀ e : Event, e.applied = true → e.x_reply_mode = some (strL "silent") →
      override_reply e = { e with result := some RResult.empty }) ∧
    (∀ e : Event, e.applied = true → e.x_reply_mode = some (strL "custom") →
      pyStrip (e.x_reply_text.getD []) = [] →
      override_reply e = { e with result := some RResult.empty }) ∧
    (∀ e : Event, e.applied = true → e.x_reply_mode = some (strL "custom") →
      pyStrip (e.x_reply_text.getD []) ≠ [] →
      override_reply e =
        { e with result := some (RResult.plain (e.x_reply_text.getD [])) }) := by
  refine ⟨?_, ?_, ?_, ?_, ?_⟩
  · intro e h
    simp only [override_reply]
    rw [if_pos h]
  · intro e h1 h2
    simp only [override_reply]
    rw [if_neg (by simp [h1]), if_pos h2]
  · intro e h1 h2
    simp only [override_reply]
    rw [if_neg (by simp [h1]), h2, Option.getD_some, if_neg (by decide), if_pos rfl]
  · intro e h1 h2 h3
    simp only [override_reply]
    rw [if_neg (by simp [h1]), h2, Option.getD_some, if_neg (by decide),
      if_neg (by decide), if_pos rfl, if_pos (Or.inr h3)]
  · intro e h1 h2 h3
    simp only [override_reply]
    rw [if_neg (by simp [h1]), h2, Option.getD_some, if_neg (by decide),
      if_neg (by decide), if_pos rfl,
      if_neg (by
        intro hcon
        rcases hcon with hcon | hcon
        · exact h3 (by rw [hcon]; rfl)
        · exact h3 hcon)]

/-- C4 witness: the five reply policies evaluated on concrete events. -/
theorem C4_witness :
    (override_reply { message_str := [], is_at_or_wake_command := false } = { message_str := [], is_at_or_wake_command := false }) ∧
    (override_reply { message_str := [], is_at_or_wake_command := false, applied := true } = { message_str := [], is_at_or_wake_command := false, applied := true }) ∧
    (override_reply { message_str := [], is_at_or_wake_command := false, applied := true, x_reply_mode := some (strL "silent"), x_reply_text := some (strL "done"), result := some (RResult.host 3) } = { message_str := [], is_at_or_wake_command := false, applied := true, x_reply_mode := some (strL "silent"), x_reply_text := some (strL "done"), result := some RResult.empty }) ∧
    (override_reply { message_str := [], is_at_or_wake_command := false, applied := true, x_reply_mode := some (strL "custom"), x_reply_text := some (strL "  "), result := some (RResult.host 3) } = { message_str := [], is_at_or_wake_command := false, applied := true, x_reply_mode := some (strL "custom"), x_reply_text := some (strL "  "), result := some RResult.empty }) ∧
    (override_reply { message_str := [], is_at_or_wake_command := false, applied := true, x_reply_mode := some (strL "custom"), x_reply_text := some (strL "done"), result := some (RResult.host 3) } = { message_str := [], is_at_or_wake_command := false, applied := true, x_reply_mode := some (strL "custom"), x_reply_text := some (strL "done"), result := some (RResult.plain (strL "done")) }) :=
  ⟨C4_thm.1 { message_str := [], is_at_or_wake_command := false } rfl,
   C4_thm.2.1 { message_str := [], is_at_or_wake_command := false, applied := true } rfl (by decide),
   C4_thm.2.2.1 { message_str := [], is_at_or_wake_command := false, applied := true, x_reply_mode := some (strL "silent"), x_reply_text := some (strL "done"), result := some (RResult.host 3) } rfl rfl,
   C4_thm.2.2.2.1 { message_str := [], is_at_or_wake_command := false, applied := true, x_reply_mode := some (strL "custom"), x_reply_text := some (strL "  "), result := some (RResult.host 3) } rfl rfl (by decide),
   C4_thm.2.2.2.2 { message_str := [], is_at_or_wake_command := false, applied := true, x_reply_mode := some (strL "custom"), x_reply_text := some (strL "done"), result := some (RResult.host 3) } rfl rfl (by decide)⟩

/-- C5 counterexample: the mixed-list record with command "/c" and alias
"/a" and no reply keys parses to an entry with reply_mode "custom" (with
empty reply text), not the "keep" the claim states, because the
re-expressed inline line carries an empty reply= option that forces
custom mode. -/
theorem C5_counterexample :
    build_mappings
        [Item.record { command := some (strL "/c"), alias_k := some (strL "/a") }] =
      [⟨strL "/a", strL "/c", strL "custom", []⟩] ∧
    strL "custom" ≠ strL "keep" := by
  decide

/-- C5 (amended): every mixed-list record supplying a non-empty
command/target and alias/mask free of separator substrings and carrying
no reply_mode and no reply key parses to an entry with reply_mode
"custom" and empty reply_text, because the record is re-expressed as an
inline line ending in an empty reply= option. -/
theorem C5_thm (r : MixedRec)
    (hm : r.reply_mode = none) (hmz : r.mode_zh = none)
    (ht : r.reply_text = none) (htz : r.reply_zh = none)
    (hcs : read_str (pyOr r.command (pyOr r.target (pyOr r.cmd_zh1 r.cmd_zh2))) ≠ [])
    (has : read_str (pyOr r.alias_k (pyOr r.mask (pyOr r.alias_zh1 r.alias_zh2))) ≠ [])
    (hc2 : containsSub (strL "=>")
      (read_str (pyOr r.command (pyOr r.target (pyOr r.cmd_zh1 r.cmd_zh2)))) = false)
    (hc3 : containsSub (strL "||")
      (read_str (pyOr r.command (pyOr r.target (pyOr r.cmd_zh1 r.cmd_zh2)))) = false)
    (ha3 : containsSub (strL "||")
      (read_str (pyOr r.alias_k (pyOr r.mask (pyOr r.alias_zh1 r.alias_zh2)))) = false) :
    itemToEntry (Item.record r) =
      some ⟨read_str (pyOr r.alias_k (pyOr r.mask (pyOr r.alias_zh1 r.alias_zh2))),
        read_str (pyOr r.command (pyOr r.target (pyOr r.cmd_zh1 r.cmd_zh2))),
        strL "custom", []⟩ :=
  itemToEntry_record_no_reply r hm hmz ht htz hcs has hc2 hc3 ha3

/-- C5 witness: the amended theorem evaluated on the record with command
"/c" and alias "/a". -/
theorem C5_witness :
    read_str (pyOr (some (strL "/c")) (pyOr none (pyOr none none))) ≠ [] ∧
    read_str (pyOr (some (strL "/a")) (pyOr none (pyOr none none))) ≠ [] ∧
    itemToEntry
        (Item.record { command := some (strL "/c"), alias_k := some (strL "/a") }) =
      some ⟨read_str (pyOr (some (strL "/a")) (pyOr none (pyOr none none))),
        read_str (pyOr (some (strL "/c")) (pyOr none (pyOr none none))),
        strL "custom", []⟩ :=
  ⟨by decide, by decide,
    C5_thm { command := some (strL "/c"), alias_k := some (strL "/a") }
      rfl rfl rfl rfl (by decide) (by decide) (by decide) (by decide) (by decide)⟩

/-- C10: a mixed-list record's configured reply text can be stored
verbatim only when it contains no double-bar substring, because the
stored reply text never contains one; and the record with reply text
"hello || world" yields an entry whose reply_text is only the last
fragment "world". -/
theorem C10_thm :
    (∀ (r : MixedRec) (ent : MappingEntry),
      itemToEntry (Item.record r) = some ent →
      ent.reply_text = read_text (pyOr r.reply_text (pyOr r.reply_zh (some []))) →
      containsSub (strL "||")
        (read_text (pyOr r.reply_text (pyOr r.reply_zh (some [])))) = false) ∧
    itemToEntry (Item.record { command := some (strL "/c"), alias_k := some (strL "/a"), reply_text := some (strL "hello || world") }) =
      some ⟨strL "/a", strL "/c", strL "custom", strL "world"⟩ ∧
    containsSub (strL "||") (strL "hello || world") = true ∧
    strL "world" ≠ strL "hello || world" := by
  refine ⟨?_, by decide, by decide, by decide⟩
  intro r ent h hv
  rw [← hv]
  exact itemToEntry_record_reply_no_bars r ent h

/-- C10 witness: the verbatim-only-without-double-bar part evaluated on a
record whose reply text "done" is stored verbatim. -/
theorem C10_witness :
    itemToEntry (Item.record { command := some (strL "/c"), alias_k := some (strL "/a"), reply_text := some (strL "done") }) =
      some ⟨strL "/a", strL "/c", strL "custom", strL "done"⟩ ∧
    (⟨strL "/a", strL "/c", strL "custom", strL "done"⟩ : MappingEntry).reply_text =
      read_text (pyOr (some (strL "done")) (pyOr none (some []))) ∧
    containsSub (strL "||")
      (read_text (pyOr (some (strL "done")) (pyOr none (some [])))) = false :=
  ⟨by decide, by decide,
    C10_thm.1 { command := some (strL "/c"), alias_k := some (strL "/a"), reply_text := some (strL "done") }
      ⟨strL "/a", strL "/c", strL "custom", strL "done"⟩ (by decide) (by decide)⟩

end CmdMask
